import Mathlib

/-!
# Verification of the modusGraphGen parser core

Shallow embedding of the entity/field extraction core of `modusGraphGen`
(`parser/parser.go`, `model/model.go`) and proofs about it.

The embedding models:
* the `model.Field`, `model.Entity`, `model.Package` structures;
* the type-descriptor printer `typeString` over a syntax-tree type `Expr`
  mirroring the `go/ast` type expressions the source inspects;
* the dgraph-tag directive parser `parseDgraphTag`;
* the per-struct field resolution loop of `parseStruct` and the two-pass
  package build of `Parse` (`parsePackage` below), over an input list of
  struct type declarations (the `go/ast` walking itself is external I/O);
* the inference pass `applyInference`.

Strings are Go (UTF-8) strings; the handful of `strings.*` helpers the
source calls are modelled structurally over `String.data` so that every
definition evaluates by kernel reduction.  Whitespace is modelled as
space/tab/CR/LF (Go's `unicode.IsSpace` also accepts a few rarer code
points; no claim depends on those).
-/

namespace ModusGraphGen

/-! ## Go `strings` helpers, modelled over `List Char` -/

/-- Model of `strings.HasPrefix(s, p)` (also backs `ast`-level `startsWith`). -/
def strStartsWith (s p : String) : Bool :=
  p.data.isPrefixOf s.data

/-- Model of the Go slice expression `s[n:]` for ASCII prefixes (the source
only drops the ASCII literals `"predicate="`, `"index="`, `"type="`, `"[]"`,
where byte count and character count agree). -/
def strDrop (s : String) (n : Nat) : String :=
  ⟨s.data.drop n⟩

/-- Characters treated as whitespace by the model (cf. `unicode.IsSpace`). -/
def isSpaceChar (c : Char) : Bool :=
  c = ' ' || c = '\t' || c = '\n' || c = '\r'

/-- Model of `strings.TrimSpace`. -/
def strTrimSpace (s : String) : String :=
  ⟨((s.data.dropWhile isSpaceChar).reverse.dropWhile isSpaceChar).reverse⟩

/-- Accumulator-based splitter behind `strFields`: `cur` is the current word,
in reverse. -/
def fieldsAux : List Char → List Char → List String
  | [], [] => []
  | [], cur => [⟨cur.reverse⟩]
  | c :: rest, cur =>
    if isSpaceChar c then
      match cur with
      | [] => fieldsAux rest []
      | _ => ⟨cur.reverse⟩ :: fieldsAux rest []
    else fieldsAux rest (c :: cur)

/-- Model of `strings.Fields(s)`: split around runs of whitespace, dropping
empty words. -/
def strFields (s : String) : List String :=
  fieldsAux s.data []

/-- Accumulator-based splitter behind `strSplitChar`. -/
def splitCharAux (sep : Char) : List Char → List Char → List String
  | [], cur => [⟨cur.reverse⟩]
  | c :: rest, cur =>
    if c = sep then ⟨cur.reverse⟩ :: splitCharAux sep rest []
    else splitCharAux sep rest (c :: cur)

/-- Model of `strings.Split(s, sep)` for a one-character separator (the
source only splits on `","`).  Empty segments are kept, as in Go. -/
def strSplitChar (s : String) (sep : Char) : List String :=
  splitCharAux sep s.data []

/-- Scanner behind `strSplitN2`. -/
def splitN2Aux (sep : Char) : List Char → List Char → List String
  | [], cur => [⟨cur.reverse⟩]
  | c :: rest, cur =>
    if c = sep then [⟨cur.reverse⟩, ⟨rest⟩]
    else splitN2Aux sep rest (c :: cur)

/-- Model of `strings.SplitN(s, sep, 2)` for a one-character separator (the
source splits the json tag with `strings.SplitN(jsonTag, ",", 2)`). -/
def strSplitN2 (s : String) (sep : Char) : List String :=
  splitN2Aux sep s.data []

/-- Substring scan behind `strContains`. -/
def containsAux (needle : List Char) : List Char → Bool
  | [] => needle.isEmpty
  | c :: rest => needle.isPrefixOf (c :: rest) || containsAux needle rest

/-- Model of `strings.Contains(s, sub)`. -/
def strContains (s sub : String) : Bool :=
  containsAux sub.data s.data

/-! ## The model data structures (`model/model.go`) -/

/-- Model of `model.Field`: a single exported field within an entity struct.  Field
names and the Go zero values follow the source struct literally. -/
structure Field where
  Name       : String := ""
  GoType     : String := ""
  JSONTag    : String := ""
  Predicate  : String := ""
  IsEdge     : Bool := false
  EdgeEntity : String := ""
  IsReverse  : Bool := false
  HasCount   : Bool := false
  Indexes    : List String := []
  TypeHint   : String := ""
  IsUID      : Bool := false
  IsDType    : Bool := false
  OmitEmpty  : Bool := false
  Upsert     : Bool := false
deriving Repr, DecidableEq

/-- Model of `model.Entity`: a single Dgraph type derived from a Go struct. -/
structure Entity where
  Name        : String := ""
  Fields      : List Field := []
  Searchable  : Bool := false
  SearchField : String := ""
deriving Repr, DecidableEq

/-- Model of `model.Package`: the fully parsed target package. -/
structure Package where
  Name     : String := ""
  Entities : List Entity := []
deriving Repr, DecidableEq

/-! ## Type descriptors and `typeString` (`parser/parser.go`) -/

/-- The `go/ast` type expressions that `typeString` switches on.  `arrayType`
carries whether a length expression is present (`t.Len == nil` marks a
slice); `other` stands for the default case, carrying the `%T` rendering of
the unhandled node. -/
inductive Expr where
  | ident (name : String)
  | selector (x : Expr) (sel : String)
  | arrayType (len : Option Unit) (elt : Expr)
  | star (x : Expr)
  | mapType (key value : Expr)
  | other (typeName : String)
deriving Repr, DecidableEq

/-- Model of `typeString` (parser.go): convert a type expression into a human-readable
Go type string, e.g. `"string"`, `"time.Time"`, `"[]Genre"`. -/
def typeString : Expr → String
  | .ident n => n
  | .selector (.ident x) sel => x ++ "." ++ sel
  | .selector _ sel => sel
  | .arrayType none elt => "[]" ++ typeString elt
  | .arrayType (some _) elt => "[...]" ++ typeString elt
  | .star x => "*" ++ typeString x
  | .mapType k v => "map[" ++ typeString k ++ "]" ++ typeString v
  | .other t => t

/-! ## The dgraph tag parser (`parseDgraphTag`) -/

/-- The body of the token loop of `parseDgraphTag`: one comma-separated
subtoken updates the field and the `inIndex` state.  The `if`-chain follows
the source line by line. -/
def processToken (st : Field × Bool) (tok : String) : Field × Bool :=
  let field := st.1
  let inIndex := st.2
  let tok := strTrimSpace tok
  if tok = "" then (field, inIndex)
  else if strStartsWith tok "predicate=" then
    ({ field with Predicate := strDrop tok 10 }, false)
  else if strStartsWith tok "index=" then
    ({ field with Indexes := field.Indexes ++ [strDrop tok 6] }, true)
  else if strStartsWith tok "type=" then
    ({ field with TypeHint := strDrop tok 5 }, false)
  else if tok = "reverse" then ({ field with IsReverse := true }, false)
  else if tok = "count" then ({ field with HasCount := true }, false)
  else if tok = "upsert" then ({ field with Upsert := true }, false)
  else if inIndex then ({ field with Indexes := field.Indexes ++ [tok] }, inIndex)
  else (field, inIndex)

/-- One space-separated directive of `parseDgraphTag`: split on commas and
run the token loop with `inIndex` reset to `false`. -/
def processDirective (field : Field) (directive : String) : Field :=
  ((strSplitChar directive ',').foldl processToken (field, false)).1

/-- Model of `parseDgraphTag` (parser.go): parse a dgraph struct tag value into the
corresponding fields of a `Field`.  Go mutates the field in place; the model
returns the updated field. -/
def parseDgraphTag (tag : String) (field : Field) : Field :=
  (strFields tag).foldl processDirective field

/-! ## The struct walker (`parseStruct`, `collectStructNames`, `Parse`)

The `go/ast` input is modelled by `RawField` (one `ast.Field`: its name
list, its type expression, and the `json`/`dgraph` values of its struct tag
— a nil tag is the pair of empty strings, exactly what
`reflect.StructTag.Get` returns then) and `TypeDecl` (one exported-or-not
struct type declaration).  Non-struct and non-`type` declarations are
skipped by the source's type assertions before any of the modelled logic
runs, so the input list carries struct declarations only. -/

/-- One `ast.Field` of a struct declaration, with its struct tag already
split into the `json` and `dgraph` values (`reflect.StructTag.Get`). -/
structure RawField where
  names     : List String := []
  type      : Expr := .ident ""
  jsonTag   : String := ""
  dgraphTag : String := ""
deriving Repr, DecidableEq

/-- One struct type declaration (`ast.TypeSpec` whose `Type` is an
`ast.StructType`). -/
structure TypeDecl where
  name   : String := ""
  fields : List RawField := []
deriving Repr, DecidableEq

/-- Model of `ast.IsExported` / `Ident.IsExported`: the first character is
an upper-case letter (an empty name is not exported). -/
def isExported (s : String) : Bool :=
  match s.data with
  | [] => false
  | c :: _ => c.isUpper

/-- The json-tag block of the `parseStruct` loop: `strings.SplitN(jsonTag,
",", 2)`; `parts[0]` is the serialization name, and when a second part
exists and contains `"omitempty"` it sets `OmitEmpty`.  `strSplitN2` always
yields one or two parts, so the match renders exactly the Go accesses
`parts[0]` / `len(parts) > 1 && strings.Contains(parts[1], ...)`. -/
def applyJSONTag (f : RawField) (field : Field) : Field :=
  if f.jsonTag ≠ "" then
    match strSplitN2 f.jsonTag ',' with
    | [] => field
    | p0 :: rest =>
      let field := { field with JSONTag := p0 }
      match rest with
      | [] => field
      | p1 :: _ =>
        if strContains p1 "omitempty" then { field with OmitEmpty := true }
        else field
  else field

/-- The dgraph-tag block of the `parseStruct` loop. -/
def applyDgraphTag (f : RawField) (field : Field) : Field :=
  if f.dgraphTag ≠ "" then parseDgraphTag f.dgraphTag field else field

/-- UID detection in `parseStruct`: name exactly `"UID"` with type
`string`. -/
def detectUID (fieldName goType : String) (field : Field) : Field :=
  if fieldName = "UID" ∧ goType = "string" then { field with IsUID := true }
  else field

/-- DType detection in `parseStruct`: name exactly `"DType"` with type
`[]string`. -/
def detectDType (fieldName goType : String) (field : Field) : Field :=
  if fieldName = "DType" ∧ goType = "[]string" then { field with IsDType := true }
  else field

/-- Predicate resolution in `parseStruct`: fall back to the json tag when no
explicit predicate was set. -/
def resolvePredicate (field : Field) : Field :=
  if field.Predicate = "" then { field with Predicate := field.JSONTag }
  else field

/-- Edge detection in `parseStruct`: the type reads `[]T` with `T` a known
struct name. -/
def detectEdge (structNames : List String) (goType : String) (field : Field) : Field :=
  if strStartsWith goType "[]" then
    let elemType := strDrop goType 2
    if structNames.contains elemType then
      { field with IsEdge := true, EdgeEntity := elemType }
    else field
  else field

/-- Reverse-edge detection in `parseStruct`: the resolved predicate starts
with `"~"`. -/
def detectReverse (field : Field) : Field :=
  if strStartsWith field.Predicate "~" then { field with IsReverse := true }
  else field

/-- The complete per-field body of the `parseStruct` loop (after the skip
checks), in source order: zero field with name and `typeString` type, json
tag, dgraph tag, UID/DType detection, predicate resolution, edge detection,
reverse detection. -/
def parseFieldCore (structNames : List String) (fieldName : String) (f : RawField) : Field :=
  let goType := typeString f.type
  detectReverse
    (detectEdge structNames goType
      (resolvePredicate
        (detectDType fieldName goType
          (detectUID fieldName goType
            (applyDgraphTag f
              (applyJSONTag f { Name := fieldName, GoType := goType }))))))

/-- One iteration of the `parseStruct` field loop over the accumulated
`(fields, hasUID, hasDType)` state: embedded fields (no names) and
non-exported fields are skipped; the `hasUID`/`hasDType` flags are set by
the same conditions that flag the field itself. -/
def parseStructStep (structNames : List String)
    (acc : List Field × Bool × Bool) (f : RawField) : List Field × Bool × Bool :=
  match f.names with
  | [] => acc
  | fieldName :: _ =>
    if isExported fieldName then
      let goType := typeString f.type
      let field := parseFieldCore structNames fieldName f
      (acc.1 ++ [field],
       (if fieldName = "UID" ∧ goType = "string" then true else acc.2.1),
       (if fieldName = "DType" ∧ goType = "[]string" then true else acc.2.2))
    else acc

/-- The parsed field list of one struct (the `fields` slice at the end of
the `parseStruct` loop). -/
def parseStructFields (structNames : List String) (raws : List RawField) : List Field :=
  (raws.foldl (parseStructStep structNames) ([], false, false)).1

/-- Model of `isStringType` (applyInference file): the Go type reads `string`. -/
def isStringType (goType : String) : Bool :=
  goType = "string"

/-- Model of `hasIndex` (applyInference file): the index name appears in the list. -/
def hasIndex (indexes : List String) (name : String) : Bool :=
  indexes.any (· = name)

/-- The per-field test of the `applyInference` loop: not UID/DType, string
typed, `"fulltext"` among the indexes. -/
def searchQualifies (f : Field) : Bool :=
  !(f.IsUID || f.IsDType) && (isStringType f.GoType && hasIndex f.Indexes "fulltext")

/-- Model of `applyInference`: scan the fields in order, skip UID/DType, and stop at
the first string field with a `fulltext` index (the loop `break`s there),
recording searchability. -/
def applyInference (entity : Entity) : Entity :=
  match entity.Fields.find? searchQualifies with
  | some f => { entity with Searchable := true, SearchField := f.Name }
  | none => entity

/-- Model of `parseStruct` (parser.go): run the field loop, drop the struct unless
both UID and DType fields were seen, otherwise build the entity and apply
inference.  The Go `(Entity, bool)` return is rendered as `Option`. -/
def parseStruct (name : String) (raws : List RawField) (structNames : List String) :
    Option Entity :=
  let r := raws.foldl (parseStructStep structNames) ([], false, false)
  if r.2.1 = false ∨ r.2.2 = false then none
  else some (applyInference { Name := name, Fields := r.1 })

/-- Model of `collectStructNames` (parser.go): the names of all exported struct type
declarations (Pass 1).  The Go `map[string]bool` set is rendered as the list
of its members. -/
def collectStructNames (decls : List TypeDecl) : List String :=
  (decls.filter (fun d => isExported d.name)).map (·.name)

/-- The pure core of `Parse` (parser.go): Pass 1 collects the struct-name
set, Pass 2 parses every exported struct declaration into an entity,
silently dropping the non-qualifying ones.  Directory reading and the
`go/parser` invocation are external I/O; their failures abort before this
core runs. -/
def parsePackage (pkgName : String) (decls : List TypeDecl) : Package :=
  let structNames := collectStructNames decls
  let entities := decls.filterMap fun d =>
    if isExported d.name then parseStruct d.name d.fields structNames else none
  { Name := pkgName, Entities := entities }

/-! ## Specification-side views of the tag grammar

To state last-write-wins, accumulation and frame properties about
`parseDgraphTag`, each subtoken is classified by the same `if`-chain the
source uses, and the effects of a whole tag string are collected into
explicit write lists.  These are views for stating theorems; the parser
itself is the fold above. -/

/-- What one subtoken does, read off the source's `if`-chain. -/
inductive TokAction where
  | skip
  | setPred (v : String)
  | addIdx (v : String)
  | setType (v : String)
  | rev
  | cnt
  | ups
  | bare (t : String)
deriving DecidableEq

/-- Classify one subtoken by the source's `if`-chain, in source order. -/
def classifyTok (tok : String) : TokAction :=
  let t := strTrimSpace tok
  if t = "" then .skip
  else if strStartsWith t "predicate=" then .setPred (strDrop t 10)
  else if strStartsWith t "index=" then .addIdx (strDrop t 6)
  else if strStartsWith t "type=" then .setType (strDrop t 5)
  else if t = "reverse" then .rev
  else if t = "count" then .cnt
  else if t = "upsert" then .ups
  else .bare t

/-- Apply one classified subtoken to the `(field, inIndex)` state; this is
`processToken` with the classification factored out. -/
def applyAction (st : Field × Bool) (a : TokAction) : Field × Bool :=
  let field := st.1
  let inIndex := st.2
  match a with
  | .skip => (field, inIndex)
  | .setPred v => ({ field with Predicate := v }, false)
  | .addIdx v => ({ field with Indexes := field.Indexes ++ [v] }, true)
  | .setType v => ({ field with TypeHint := v }, false)
  | .rev => ({ field with IsReverse := true }, false)
  | .cnt => ({ field with HasCount := true }, false)
  | .ups => ({ field with Upsert := true }, false)
  | .bare t => if inIndex then ({ field with Indexes := field.Indexes ++ [t] }, inIndex) else (field, inIndex)

/-- Last write wins: the last element of the write list, or the default. -/
def lastWrite : List String → String → String
  | [], d => d
  | v :: vs, _ => lastWrite vs v

/-- Predicate writes of a token list, in encounter order. -/
def predWritesToks (toks : List String) : List String :=
  toks.filterMap fun t =>
    match classifyTok t with
    | .setPred v => some v
    | _ => none

/-- Type-hint writes of a token list, in encounter order. -/
def typeWritesToks (toks : List String) : List String :=
  toks.filterMap fun t =>
    match classifyTok t with
    | .setType v => some v
    | _ => none

/-- Index contribution and next index-mode of one classified subtoken. -/
def tokIdxApp (inIndex : Bool) (a : TokAction) : List String × Bool :=
  match a with
  | .skip => ([], inIndex)
  | .setPred _ => ([], false)
  | .addIdx v => ([v], true)
  | .setType _ => ([], false)
  | .rev => ([], false)
  | .cnt => ([], false)
  | .ups => ([], false)
  | .bare t => (if inIndex then [t] else [], inIndex)

/-- Index values appended by a token list starting in the given index-mode,
in encounter order. -/
def idxAppendsToks (inIndex : Bool) : List String → List String
  | [] => []
  | t :: r =>
    (tokIdxApp inIndex (classifyTok t)).1 ++
      idxAppendsToks (tokIdxApp inIndex (classifyTok t)).2 r

/-- Index-mode after a token list. -/
def idxModeToks (inIndex : Bool) : List String → Bool
  | [] => inIndex
  | t :: r => idxModeToks (tokIdxApp inIndex (classifyTok t)).2 r

/-- Whether one classified subtoken is the bare `reverse` flag. -/
def tokIsRev : TokAction → Bool
  | .rev => true
  | _ => false

/-- Whether one classified subtoken is the bare `count` flag. -/
def tokIsCnt : TokAction → Bool
  | .cnt => true
  | _ => false

/-- Whether one classified subtoken is the bare `upsert` flag. -/
def tokIsUps : TokAction → Bool
  | .ups => true
  | _ => false

/-- Whether a token list carries a bare `reverse` flag. -/
def anyRevToks (toks : List String) : Bool :=
  toks.any fun t => tokIsRev (classifyTok t)

/-- Whether a token list carries a bare `count` flag. -/
def anyCntToks (toks : List String) : Bool :=
  toks.any fun t => tokIsCnt (classifyTok t)

/-- Whether a token list carries a bare `upsert` flag. -/
def anyUpsToks (toks : List String) : Bool :=
  toks.any fun t => tokIsUps (classifyTok t)

/-- Tokens of one directive: split on commas. -/
def dirToks (d : String) : List String :=
  strSplitChar d ','

/-- Predicate writes of a directive list. -/
def predWritesDirs : List String → List String
  | [] => []
  | d :: r => predWritesToks (dirToks d) ++ predWritesDirs r

/-- Type-hint writes of a directive list. -/
def typeWritesDirs : List String → List String
  | [] => []
  | d :: r => typeWritesToks (dirToks d) ++ typeWritesDirs r

/-- Index values appended by a directive list (index-mode resets to `false`
at each directive). -/
def idxAppendsDirs : List String → List String
  | [] => []
  | d :: r => idxAppendsToks false (dirToks d) ++ idxAppendsDirs r

/-- Whether a directive list carries a bare `reverse` flag. -/
def anyRevDirs (ds : List String) : Bool :=
  ds.any fun d => anyRevToks (dirToks d)

/-- Whether a directive list carries a bare `count` flag. -/
def anyCntDirs (ds : List String) : Bool :=
  ds.any fun d => anyCntToks (dirToks d)

/-- Whether a directive list carries a bare `upsert` flag. -/
def anyUpsDirs (ds : List String) : Bool :=
  ds.any fun d => anyUpsToks (dirToks d)

/-- Predicate writes of a whole dgraph tag, in encounter order. -/
def predWrites (tag : String) : List String :=
  predWritesDirs (strFields tag)

/-- Type-hint writes of a whole dgraph tag, in encounter order. -/
def typeWrites (tag : String) : List String :=
  typeWritesDirs (strFields tag)

/-- Index values appended by a whole dgraph tag, in encounter order. -/
def idxAppends (tag : String) : List String :=
  idxAppendsDirs (strFields tag)

/-- Whether a whole dgraph tag carries a bare `reverse` flag. -/
def hasReverseFlag (tag : String) : Bool :=
  anyRevDirs (strFields tag)

/-- Whether a whole dgraph tag carries a bare `count` flag. -/
def hasCountFlag (tag : String) : Bool :=
  anyCntDirs (strFields tag)

/-- Whether a whole dgraph tag carries a bare `upsert` flag. -/
def hasUpsertFlag (tag : String) : Bool :=
  anyUpsDirs (strFields tag)

/-- The serialization name the json-tag block records: first comma-segment
of the json tag, `""` when the tag is absent. -/
def jsonName (j : String) : String :=
  if j = "" then ""
  else
    match strSplitN2 j ',' with
    | [] => ""
    | p0 :: _ => p0

/-- Whether the json-tag block sets `OmitEmpty`. -/
def jsonOmit (j : String) : Bool :=
  if j = "" then false
  else
    match strSplitN2 j ',' with
    | _ :: p1 :: _ => strContains p1 "omitempty"
    | _ => false

/-- The resolved predicate of a field: the dgraph tag's last predicate write
when that leaves a non-empty value, else the serialization name. -/
def resolvedPredicate (jsonTag dgraphTag : String) : String :=
  if lastWrite (predWrites dgraphTag) "" = "" then jsonName jsonTag
  else lastWrite (predWrites dgraphTag) ""

/-! ## Concrete fixtures for the closed witnesses -/

/-- A well-formed `UID string` field. -/
def uidRaw : RawField :=
  { names := ["UID"], type := .ident "string", jsonTag := "uid" }

/-- A well-formed `DType []string` field. -/
def dtypeRaw : RawField :=
  { names := ["DType"], type := .arrayType none (.ident "string"), jsonTag := "dgraph.type" }

/-- A fulltext-indexed string field named `Name`. -/
def nameRaw : RawField :=
  { names := ["Name"], type := .ident "string", jsonTag := "name",
    dgraphTag := "index=hash,term,fulltext" }

/-- A second fulltext-indexed string field, declared after `Name`. -/
def titleRaw : RawField :=
  { names := ["Title"], type := .ident "string", jsonTag := "title",
    dgraphTag := "index=fulltext" }

/-- An edge field `Genres []Genre`. -/
def genresRaw : RawField :=
  { names := ["Genres"], type := .arrayType none (.ident "Genre"), jsonTag := "genre",
    dgraphTag := "predicate=genre,reverse,count" }

/-- A qualifying entity declaration with two fulltext fields and an edge. -/
def filmDecl : TypeDecl :=
  { name := "Film", fields := [uidRaw, dtypeRaw, nameRaw, titleRaw, genresRaw] }

/-- A declaration lacking `DType`: a helper type, silently excluded. -/
def genreDecl : TypeDecl :=
  { name := "Genre", fields := [uidRaw, nameRaw] }

/-- The demo package: one qualifying entity, one helper type. -/
def demoDecls : List TypeDecl :=
  [filmDecl, genreDecl]

/-- The demo entity actually built for `Film`. -/
def filmEntity : Entity :=
  (parseStruct "Film" filmDecl.fields (collectStructNames demoDecls)).getD {}

/-! ## Characterization of the tag parser -/

theorem processToken_eq_applyAction (st : Field × Bool) (tok : String) :
    processToken st tok = applyAction st (classifyTok tok) := by
  obtain ⟨fl, b⟩ := st
  simp only [processToken, classifyTok]
  repeat' split
  all_goals simp_all [applyAction]

theorem foldTokens_char (toks : List String) :
    ∀ (fl : Field) (b : Bool),
      toks.foldl processToken (fl, b) =
        ({ fl with
            Predicate := lastWrite (predWritesToks toks) fl.Predicate,
            TypeHint := lastWrite (typeWritesToks toks) fl.TypeHint,
            Indexes := fl.Indexes ++ idxAppendsToks b toks,
            IsReverse := fl.IsReverse || anyRevToks toks,
            HasCount := fl.HasCount || anyCntToks toks,
            Upsert := fl.Upsert || anyUpsToks toks },
          idxModeToks b toks) := by
  induction toks with
  | nil =>
    intro fl b
    simp [predWritesToks, typeWritesToks, idxAppendsToks, idxModeToks,
      anyRevToks, anyCntToks, anyUpsToks, lastWrite]
  | cons t r ih =>
    intro fl b
    rw [List.foldl_cons, processToken_eq_applyAction]
    cases ha : classifyTok t <;>
      simp [applyAction, ha, ih, predWritesToks, typeWritesToks, idxAppendsToks,
        idxModeToks, anyRevToks, anyCntToks, anyUpsToks, tokIdxApp, tokIsRev,
        tokIsCnt, tokIsUps, lastWrite, List.filterMap_cons, List.append_assoc,
        Bool.or_assoc]
    case bare tb =>
      cases b <;>
        simp [applyAction, ha, ih, predWritesToks, typeWritesToks, idxAppendsToks,
          idxModeToks, anyRevToks, anyCntToks, anyUpsToks, tokIdxApp, tokIsRev,
          tokIsCnt, tokIsUps, lastWrite, List.filterMap_cons, List.append_assoc,
          Bool.or_assoc]

theorem lastWrite_append (xs ys : List String) (d : String) :
    lastWrite (xs ++ ys) d = lastWrite ys (lastWrite xs d) := by
  induction xs generalizing d with
  | nil => rfl
  | cons x xs ih => simp [lastWrite, ih]

theorem processDirective_char (fl : Field) (d : String) :
    processDirective fl d =
      { fl with
          Predicate := lastWrite (predWritesToks (dirToks d)) fl.Predicate,
          TypeHint := lastWrite (typeWritesToks (dirToks d)) fl.TypeHint,
          Indexes := fl.Indexes ++ idxAppendsToks false (dirToks d),
          IsReverse := fl.IsReverse || anyRevToks (dirToks d),
          HasCount := fl.HasCount || anyCntToks (dirToks d),
          Upsert := fl.Upsert || anyUpsToks (dirToks d) } := by
  simp [processDirective, foldTokens_char, dirToks]

theorem foldDirs_char (ds : List String) :
    ∀ fl : Field,
      ds.foldl processDirective fl =
        { fl with
            Predicate := lastWrite (predWritesDirs ds) fl.Predicate,
            TypeHint := lastWrite (typeWritesDirs ds) fl.TypeHint,
            Indexes := fl.Indexes ++ idxAppendsDirs ds,
            IsReverse := fl.IsReverse || anyRevDirs ds,
            HasCount := fl.HasCount || anyCntDirs ds,
            Upsert := fl.Upsert || anyUpsDirs ds } := by
  induction ds with
  | nil =>
    intro fl
    simp [predWritesDirs, typeWritesDirs, idxAppendsDirs, anyRevDirs, anyCntDirs,
      anyUpsDirs, lastWrite]
  | cons d r ih =>
    intro fl
    rw [List.foldl_cons, processDirective_char, ih]
    simp [predWritesDirs, typeWritesDirs, idxAppendsDirs, anyRevDirs, anyCntDirs,
      anyUpsDirs, lastWrite_append, List.append_assoc, Bool.or_assoc]

theorem parseDgraphTag_char (tag : String) (fl : Field) :
    parseDgraphTag tag fl =
      { fl with
          Predicate := lastWrite (predWrites tag) fl.Predicate,
          TypeHint := lastWrite (typeWrites tag) fl.TypeHint,
          Indexes := fl.Indexes ++ idxAppends tag,
          IsReverse := fl.IsReverse || hasReverseFlag tag,
          HasCount := fl.HasCount || hasCountFlag tag,
          Upsert := fl.Upsert || hasUpsertFlag tag } :=
  foldDirs_char (strFields tag) fl

theorem applyDgraphTag_char (f : RawField) (fl : Field) :
    applyDgraphTag f fl =
      { fl with
          Predicate := lastWrite (predWrites f.dgraphTag) fl.Predicate,
          TypeHint := lastWrite (typeWrites f.dgraphTag) fl.TypeHint,
          Indexes := fl.Indexes ++ idxAppends f.dgraphTag,
          IsReverse := fl.IsReverse || hasReverseFlag f.dgraphTag,
          HasCount := fl.HasCount || hasCountFlag f.dgraphTag,
          Upsert := fl.Upsert || hasUpsertFlag f.dgraphTag } := by
  unfold applyDgraphTag
  split
  · exact parseDgraphTag_char _ _
  · rename_i h
    rw [not_ne_iff] at h
    rw [h]
    have h1 : predWrites "" = [] := rfl
    have h2 : typeWrites "" = [] := rfl
    have h3 : idxAppends "" = [] := rfl
    have h4 : hasReverseFlag "" = false := rfl
    have h5 : hasCountFlag "" = false := rfl
    have h6 : hasUpsertFlag "" = false := rfl
    simp [h1, h2, h3, h4, h5, h6, lastWrite]

theorem splitN2Aux_ne_nil (sep : Char) : ∀ (l cur : List Char), splitN2Aux sep l cur ≠ [] := by
  intro l
  induction l with
  | nil => intro cur; simp [splitN2Aux]
  | cons c rest ih => intro cur; simp only [splitN2Aux]; split <;> simp [ih]

theorem strSplitN2_ne_nil (s : String) (sep : Char) : strSplitN2 s sep ≠ [] :=
  splitN2Aux_ne_nil sep s.data []

theorem applyJSONTag_char (f : RawField) (fl : Field) :
    applyJSONTag f fl =
      { fl with
          JSONTag := if f.jsonTag = "" then fl.JSONTag else jsonName f.jsonTag,
          OmitEmpty := fl.OmitEmpty || jsonOmit f.jsonTag } := by
  by_cases hj : f.jsonTag = ""
  · simp [applyJSONTag, jsonOmit, hj]
  · rcases hparts : strSplitN2 f.jsonTag ',' with _ | ⟨p0, _ | ⟨p1, rest⟩⟩
    · exact absurd hparts (strSplitN2_ne_nil _ _)
    · simp [applyJSONTag, jsonName, jsonOmit, hj, hparts]
    · by_cases hc : strContains p1 "omitempty" = true <;>
        simp [applyJSONTag, jsonName, jsonOmit, hj, hparts, hc]

theorem detectUID_char (n g : String) (fl : Field) :
    detectUID n g fl =
      { fl with IsUID := if n = "UID" ∧ g = "string" then true else fl.IsUID } := by
  unfold detectUID
  split <;> simp_all

theorem detectDType_char (n g : String) (fl : Field) :
    detectDType n g fl =
      { fl with IsDType := if n = "DType" ∧ g = "[]string" then true else fl.IsDType } := by
  unfold detectDType
  split <;> simp_all

theorem resolvePredicate_char (fl : Field) :
    resolvePredicate fl =
      { fl with Predicate := if fl.Predicate = "" then fl.JSONTag else fl.Predicate } := by
  unfold resolvePredicate
  split <;> simp_all

theorem detectEdge_char (s : List String) (g : String) (fl : Field) :
    detectEdge s g fl =
      { fl with
          IsEdge := fl.IsEdge || (strStartsWith g "[]" && s.contains (strDrop g 2)),
          EdgeEntity :=
            if strStartsWith g "[]" && s.contains (strDrop g 2) then strDrop g 2
            else fl.EdgeEntity } := by
  unfold detectEdge
  repeat' split
  all_goals simp_all

theorem detectReverse_char (fl : Field) :
    detectReverse fl =
      { fl with IsReverse := fl.IsReverse || strStartsWith fl.Predicate "~" } := by
  unfold detectReverse
  split <;> simp_all

theorem parseFieldCore_char (s : List String) (n : String) (f : RawField) :
    parseFieldCore s n f =
      { Name := n,
        GoType := typeString f.type,
        JSONTag := jsonName f.jsonTag,
        Predicate := resolvedPredicate f.jsonTag f.dgraphTag,
        IsEdge := strStartsWith (typeString f.type) "[]" &&
          (s.contains (strDrop (typeString f.type) 2)),
        EdgeEntity :=
          if strStartsWith (typeString f.type) "[]" &&
              s.contains (strDrop (typeString f.type) 2) then
            strDrop (typeString f.type) 2
          else "",
        IsReverse := hasReverseFlag f.dgraphTag ||
          strStartsWith (resolvedPredicate f.jsonTag f.dgraphTag) "~",
        HasCount := hasCountFlag f.dgraphTag,
        Indexes := idxAppends f.dgraphTag,
        TypeHint := lastWrite (typeWrites f.dgraphTag) "",
        IsUID := if n = "UID" ∧ typeString f.type = "string" then true else false,
        IsDType := if n = "DType" ∧ typeString f.type = "[]string" then true else false,
        OmitEmpty := jsonOmit f.jsonTag,
        Upsert := hasUpsertFlag f.dgraphTag } := by
  simp only [parseFieldCore]
  rw [applyJSONTag_char, applyDgraphTag_char, detectUID_char, detectDType_char,
    resolvePredicate_char, detectEdge_char, detectReverse_char]
  by_cases hj : f.jsonTag = "" <;>
    by_cases hp : lastWrite (predWrites f.dgraphTag) "" = "" <;>
    simp [resolvedPredicate, jsonName, hj, hp]

/-! ## Shape lemmas for slice-typed strings -/

theorem strStartsWith_bracket_iff (g : String) :
    strStartsWith g "[]" = true ↔ ∃ T : String, g.data = '[' :: ']' :: T.data := by
  constructor
  · intro h
    unfold strStartsWith at h
    rcases hd : g.data with _ | ⟨c1, _ | ⟨c2, rest⟩⟩
    · rw [hd] at h; simp [List.isPrefixOf] at h
    · rw [hd] at h; simp [List.isPrefixOf] at h
    · rw [hd] at h
      simp [List.isPrefixOf] at h
      obtain ⟨h1, h2⟩ := h
      subst h1; subst h2
      exact ⟨⟨rest⟩, rfl⟩
  · rintro ⟨T, hT⟩
    unfold strStartsWith
    rw [hT]
    simp [List.isPrefixOf]

theorem strDrop_two_of_shape {g T : String} (h : g.data = '[' :: ']' :: T.data) :
    strDrop g 2 = T := by
  unfold strDrop
  rw [h]
  rfl

/-! ## First-match lemma for `List.find?` -/

theorem find?_append_first {α : Type} (p : α → Bool) :
    ∀ (pre : List α) (x : α) (post : List α), (∀ g ∈ pre, p g = false) → p x = true →
      List.find? p (pre ++ x :: post) = some x := by
  intro pre
  induction pre with
  | nil =>
    intro x post _ hx
    simpa using List.find?_cons_of_pos _ hx
  | cons a pre ih =>
    intro x post hpre hx
    have ha : p a = false := hpre a (by simp)
    rw [List.cons_append, List.find?_cons_of_neg _ (by simp [ha])]
    exact ih x post (fun g hg => hpre g (by simp [hg])) hx

/-! ## Projection lemmas for `applyInference` -/

theorem applyInference_Name (E : Entity) : (applyInference E).Name = E.Name := by
  unfold applyInference
  split <;> rfl

theorem applyInference_Fields (E : Entity) : (applyInference E).Fields = E.Fields := by
  unfold applyInference
  split <;> rfl

/-! ## The claims

Each claim of the specification is settled by one theorem below; hypotheses
of proved theorems are exercised by closed witnesses on the concrete
fixtures. -/

/-- C7: across all directive tokens of one annotation string, the scalar
keys Predicate and TypeHint are last-write-wins (the final occurrence
determines the value), while Indexes only accumulates: every `index=` value
and every index-mode continuation is appended in encounter order after the
starting list, nothing is replaced or removed, and duplicates are kept (the
closing conjunct shows `index=hash index=hash` yielding two copies). -/
theorem claim_C7 (tag : String) (fl : Field) :
    ((parseDgraphTag tag fl).Predicate = lastWrite (predWrites tag) fl.Predicate) ∧
    ((parseDgraphTag tag fl).TypeHint = lastWrite (typeWrites tag) fl.TypeHint) ∧
    ((parseDgraphTag tag fl).Indexes = fl.Indexes ++ idxAppends tag) ∧
    (parseDgraphTag "index=hash index=hash" {}).Indexes = ["hash", "hash"] := by
  rw [parseDgraphTag_char]
  exact ⟨rfl, rfl, rfl, by decide⟩

/-- C9: for every directive string and every starting Field, the annotation
parser mutates only Predicate, Indexes, TypeHint, IsReverse, HasCount and
Upsert; Name, GoType, JSONTag, OmitEmpty, IsEdge, EdgeEntity, IsUID and
IsDType hold exactly their pre-call values. -/
theorem claim_C9 (tag : String) (fl : Field) :
    ((parseDgraphTag tag fl).Name = fl.Name) ∧
    ((parseDgraphTag tag fl).GoType = fl.GoType) ∧
    ((parseDgraphTag tag fl).JSONTag = fl.JSONTag) ∧
    ((parseDgraphTag tag fl).OmitEmpty = fl.OmitEmpty) ∧
    ((parseDgraphTag tag fl).IsEdge = fl.IsEdge) ∧
    ((parseDgraphTag tag fl).EdgeEntity = fl.EdgeEntity) ∧
    ((parseDgraphTag tag fl).IsUID = fl.IsUID) ∧
    ((parseDgraphTag tag fl).IsDType = fl.IsDType) := by
  rw [parseDgraphTag_char]
  exact ⟨rfl, rfl, rfl, rfl, rfl, rfl, rfl, rfl⟩

/-- C5 counterexample: the claim says an unrecognized subtoken containing
`=` is dropped even in index-mode, but on the tag `index=geo,foo=bar` the
source appends `foo=bar` to Indexes. -/
theorem claim_C5_cex :
    (parseDgraphTag "index=geo,foo=bar" {}).Indexes = ["geo", "foo=bar"] ∧
    strContains "foo=bar" "=" = true ∧
    (parseDgraphTag "index=geo,foo=bar" {}).Indexes ≠ ["geo"] := by
  decide

/-- C5 amended: a subtoken that is not a predicate=/index=/type= key-value
and not exactly reverse/count/upsert is appended to Indexes whenever
index-mode is on — whether or not it contains `=` — and is dropped silently,
leaving the field unchanged, when index-mode is off. -/
theorem claim_C5_amended (fl : Field) (b : Bool) (tok : String)
    (h1 : strTrimSpace tok ≠ "")
    (h2 : strStartsWith (strTrimSpace tok) "predicate=" = false)
    (h3 : strStartsWith (strTrimSpace tok) "index=" = false)
    (h4 : strStartsWith (strTrimSpace tok) "type=" = false)
    (h5 : strTrimSpace tok ≠ "reverse")
    (h6 : strTrimSpace tok ≠ "count")
    (h7 : strTrimSpace tok ≠ "upsert") :
    processToken (fl, b) tok =
      (if b then { fl with Indexes := fl.Indexes ++ [strTrimSpace tok] } else fl, b) := by
  simp only [processToken, h1, h2, h3, h4, h5, h6, h7]
  cases b <;> simp

/-- Witness for C5 amended: the unrecognized key-value subtoken `foo=bar` is
appended in index-mode and dropped otherwise. -/
theorem claim_C5_amended_witness :
    processToken ({}, true) "foo=bar" = ({ Indexes := ["foo=bar"] }, true) ∧
    processToken ({}, false) "foo=bar" = ({}, false) := by
  constructor
  · have h := claim_C5_amended {} true "foo=bar" (by decide) (by decide) (by decide)
      (by decide) (by decide) (by decide) (by decide)
    rw [h]; decide
  · have h := claim_C5_amended {} false "foo=bar" (by decide) (by decide) (by decide)
      (by decide) (by decide) (by decide) (by decide)
    rw [h]; decide

/-- C6: IsReverse is true if the resolved Predicate begins with `~` or the
directive set contains the bare reverse flag, each trigger sufficing
independently; in particular the tag `predicate=~genre` alone yields
Predicate `~genre` and IsReverse true purely from the `~` prefix check in
the struct builder, while the annotation parser itself sets no reverse
flag on that tag. -/
theorem claim_C6 (s : List String) (n : String) (f : RawField) :
    (strStartsWith (parseFieldCore s n f).Predicate "~" = true →
      (parseFieldCore s n f).IsReverse = true) ∧
    (hasReverseFlag f.dgraphTag = true → (parseFieldCore s n f).IsReverse = true) ∧
    ((parseFieldCore [] "Genres"
        { names := ["Genres"], type := .ident "string", jsonTag := "",
          dgraphTag := "predicate=~genre" }).Predicate = "~genre" ∧
      (parseFieldCore [] "Genres"
        { names := ["Genres"], type := .ident "string", jsonTag := "",
          dgraphTag := "predicate=~genre" }).IsReverse = true ∧
      (parseDgraphTag "predicate=~genre" {}).IsReverse = false) := by
  refine ⟨?_, ?_, by decide, by decide, by decide⟩
  · rw [parseFieldCore_char]
    intro h
    simp only at h ⊢
    rw [h, Bool.or_true]
  · intro h
    rw [parseFieldCore_char]
    simp only
    rw [h, Bool.true_or]

/-- Witness for C6: the bare reverse flag alone triggers IsReverse, and a
`~`-prefixed predicate resolved from the json tag alone triggers it too. -/
theorem claim_C6_witness :
    (parseFieldCore [] "Tags"
      { names := ["Tags"], type := .ident "string", jsonTag := "",
        dgraphTag := "reverse" }).IsReverse = true ∧
    (parseFieldCore [] "Films"
      { names := ["Films"], type := .ident "string", jsonTag := "~rated",
        dgraphTag := "" }).IsReverse = true := by
  constructor
  · exact (claim_C6 [] "Tags"
      { names := ["Tags"], type := .ident "string", jsonTag := "",
        dgraphTag := "reverse" }).2.1 (by decide)
  · exact (claim_C6 [] "Films"
      { names := ["Films"], type := .ident "string", jsonTag := "~rated",
        dgraphTag := "" }).1 (by decide)

/-- C8 counterexample: the claim says the resolved Predicate is the
directive-supplied predicate whenever one is present, but the tag
`predicate=` supplies the empty predicate and the source then falls back to
the serialization name `genre`. -/
theorem claim_C8_cex :
    predWrites "predicate=" = [""] ∧
    lastWrite (predWrites "predicate=") "" = "" ∧
    (parseFieldCore [] "Genre"
      { names := ["Genre"], type := .ident "string", jsonTag := "genre",
        dgraphTag := "predicate=" }).Predicate = "genre" ∧
    ("genre" : String) ≠ "" := by
  decide

/-- C8 amended: the resolved Predicate is the directive-supplied predicate
when the directive resolution (last predicate write) leaves a non-empty
value; when it leaves the empty string — no predicate directive, or an
explicitly empty one — the serialization name from the json tag is used; a
field with neither is left with an empty Predicate, which is not an
error. -/
theorem claim_C8_amended (s : List String) (n : String) (f : RawField) :
    (lastWrite (predWrites f.dgraphTag) "" ≠ "" →
      (parseFieldCore s n f).Predicate = lastWrite (predWrites f.dgraphTag) "") ∧
    (lastWrite (predWrites f.dgraphTag) "" = "" →
      (parseFieldCore s n f).Predicate = jsonName f.jsonTag) ∧
    (predWrites f.dgraphTag = [] → f.jsonTag = "" →
      (parseFieldCore s n f).Predicate = "") := by
  rw [parseFieldCore_char]
  refine ⟨?_, ?_, ?_⟩
  · intro h
    simp only
    rw [resolvedPredicate, if_neg h]
  · intro h
    simp only
    rw [resolvedPredicate, if_pos h]
  · intro h hj
    simp only
    rw [resolvedPredicate, h]
    simp [lastWrite, jsonName, hj]

/-- Witness for C8 amended: an explicit predicate wins, the json name is
the fallback, and a field with neither keeps the empty predicate. -/
theorem claim_C8_witness :
    (parseFieldCore [] "ReleaseDate"
      { names := ["ReleaseDate"], type := .selector (.ident "time") "Time",
        jsonTag := "initial_release_date",
        dgraphTag := "predicate=initial_release_date index=year" }).Predicate =
      "initial_release_date" ∧
    (parseFieldCore [] "Note"
      { names := ["Note"], type := .ident "string", jsonTag := "note",
        dgraphTag := "index=term" }).Predicate = "note" ∧
    (parseFieldCore [] "Plain"
      { names := ["Plain"], type := .ident "string" }).Predicate = "" := by
  refine ⟨?_, ?_, ?_⟩
  · have h := (claim_C8_amended [] "ReleaseDate"
      { names := ["ReleaseDate"], type := .selector (.ident "time") "Time",
        jsonTag := "initial_release_date",
        dgraphTag := "predicate=initial_release_date index=year" }).1 (by decide)
    rw [h]; decide
  · have h := (claim_C8_amended [] "Note"
      { names := ["Note"], type := .ident "string", jsonTag := "note",
        dgraphTag := "index=term" }).2.1 (by decide)
    rw [h]; decide
  · exact (claim_C8_amended [] "Plain"
      { names := ["Plain"], type := .ident "string" }).2.2 (by decide) (by decide)

/-- C1 counterexample: pointer markers are not stripped by the source.  A
pointer-to-string is recorded as `*string`, so a `UID *string` field is not
classified as string-typed (not flagged IsUID), and a sequence-of-pointer
field records `[]*Genre` and is not an edge even though `Genre` is in the
struct-name set. -/
theorem claim_C1_cex :
    typeString (Expr.star (Expr.ident "string")) = "*string" ∧
    (parseFieldCore [] "UID"
      { names := ["UID"], type := Expr.star (Expr.ident "string"),
        jsonTag := "uid" }).IsUID = false ∧
    typeString (Expr.arrayType none (Expr.star (Expr.ident "Genre"))) = "[]*Genre" ∧
    (parseFieldCore ["Genre"] "Genres"
      { names := ["Genres"],
        type := Expr.arrayType none (Expr.star (Expr.ident "Genre")) }).IsEdge =
      false := by
  decide

/-- C1 amended: pointer markers are preserved, not stripped: the recorded
type name of a pointer type is `*` followed by the referent's recorded
name.  Consequently a field named UID declared pointer-to-string is never
flagged IsUID, and a field declared sequence-of-pointer-to-T records
`[]*T`, so edge detection compares `*T` — not `T` — against the Pass-1
struct-name set. -/
theorem claim_C1_amended (e : Expr) (s : List String) (n : String) (f : RawField) :
    typeString (Expr.star e) = "*" ++ typeString e ∧
    (f.type = Expr.star e → (parseFieldCore s "UID" f).IsUID = false) ∧
    (f.type = Expr.arrayType none (Expr.star e) →
      typeString f.type = "[]" ++ ("*" ++ typeString e) ∧
      ((parseFieldCore s n f).IsEdge = true ↔
        s.contains ("*" ++ typeString e) = true)) := by
  have hne : ("*" ++ typeString e) ≠ "string" := by
    intro heq
    have hdat : '*' :: (typeString e).data = ['s', 't', 'r', 'i', 'n', 'g'] :=
      congrArg String.data heq
    exact absurd (List.cons.inj hdat).1 (by decide)
  refine ⟨rfl, ?_, ?_⟩
  · intro h
    rw [parseFieldCore_char]
    simp only
    rw [h]
    rw [if_neg]
    rintro ⟨-, h2⟩
    exact hne h2
  · intro h
    refine ⟨by rw [h]; rfl, ?_⟩
    rw [parseFieldCore_char]
    simp only
    rw [h]
    have hpre : strStartsWith (typeString (Expr.arrayType none (Expr.star e))) "[]" = true := by
      apply (strStartsWith_bracket_iff _).mpr
      exact ⟨"*" ++ typeString e, rfl⟩
    have hdrop : strDrop (typeString (Expr.arrayType none (Expr.star e))) 2 =
        "*" ++ typeString e :=
      strDrop_two_of_shape rfl
    rw [hpre, hdrop, Bool.true_and]

/-- Witness for C1 amended: concrete pointer-typed fields exercising both
consequences. -/
theorem claim_C1_witness :
    (parseFieldCore [] "UID"
      { names := ["UID"], type := Expr.star (Expr.ident "string") }).IsUID = false ∧
    ((parseFieldCore ["Genre"] "Genres"
      { names := ["Genres"],
        type := Expr.arrayType none (Expr.star (Expr.ident "Genre")) }).IsEdge = true ↔
      (["Genre"] : List String).contains ("*" ++ typeString (Expr.ident "Genre")) = true) := by
  constructor
  · exact (claim_C1_amended (Expr.ident "string") [] "UID"
      { names := ["UID"], type := Expr.star (Expr.ident "string") }).2.1 rfl
  · exact ((claim_C1_amended (Expr.ident "Genre") ["Genre"] "Genres"
      { names := ["Genres"],
        type := Expr.arrayType none (Expr.star (Expr.ident "Genre")) }).2.2 rfl).2

theorem collectStructNames_contains (decls : List TypeDecl) (T : String) :
    (collectStructNames decls).contains T = true ↔
      ∃ d ∈ decls, d.name = T ∧ isExported d.name = true := by
  have hmemiff : ((collectStructNames decls).contains T = true) ↔
      T ∈ collectStructNames decls := List.elem_iff
  rw [hmemiff]
  unfold collectStructNames
  simp only [List.mem_map, List.mem_filter]
  constructor
  · rintro ⟨d, ⟨hd, hexp⟩, rfl⟩
    exact ⟨d, hd, rfl, hexp⟩
  · rintro ⟨d, hd, rfl, hexp⟩
    exact ⟨d, ⟨hd, hexp⟩, rfl⟩

/-- C4: a parsed field is an edge iff its recorded type is sequence-of-T
with T in the Pass-1 struct-name set, in which case EdgeEntity is T; any
other shape leaves IsEdge false and EdgeEntity empty.  The final conjunct
shows the Pass-1 set is exactly the exported declared struct names, with no
UID/DType requirement on the referent. -/
theorem claim_C4 (s : List String) (n : String) (f : RawField) :
    ((parseFieldCore s n f).IsEdge = true ↔
      ∃ T : String, (typeString f.type).data = '[' :: ']' :: T.data ∧
        s.contains T = true) ∧
    (∀ T : String, (typeString f.type).data = '[' :: ']' :: T.data →
      s.contains T = true →
      (parseFieldCore s n f).IsEdge = true ∧ (parseFieldCore s n f).EdgeEntity = T) ∧
    ((parseFieldCore s n f).IsEdge = false → (parseFieldCore s n f).EdgeEntity = "") ∧
    (∀ (decls : List TypeDecl) (T : String),
      (collectStructNames decls).contains T = true ↔
        ∃ d ∈ decls, d.name = T ∧ isExported d.name = true) := by
  refine ⟨?_, ?_, ?_, collectStructNames_contains⟩
  · rw [parseFieldCore_char]
    simp only
    constructor
    · intro h
      rw [Bool.and_eq_true] at h
      obtain ⟨h1, h2⟩ := h
      obtain ⟨T, hT⟩ := (strStartsWith_bracket_iff _).mp h1
      refine ⟨T, hT, ?_⟩
      rwa [strDrop_two_of_shape hT] at h2
    · rintro ⟨T, hT, hc⟩
      rw [Bool.and_eq_true]
      refine ⟨(strStartsWith_bracket_iff _).mpr ⟨T, hT⟩, ?_⟩
      rwa [strDrop_two_of_shape hT]
  · intro T hT hc
    rw [parseFieldCore_char]
    simp only
    have h1 : strStartsWith (typeString f.type) "[]" = true :=
      (strStartsWith_bracket_iff _).mpr ⟨T, hT⟩
    have h2 : strDrop (typeString f.type) 2 = T := strDrop_two_of_shape hT
    have hcond : (strStartsWith (typeString f.type) "[]" &&
        s.contains (strDrop (typeString f.type) 2)) = true := by
      rw [Bool.and_eq_true]
      exact ⟨h1, by rwa [h2]⟩
    refine ⟨hcond, ?_⟩
    rw [if_pos hcond]
    exact h2
  · intro hfalse
    rw [parseFieldCore_char] at hfalse ⊢
    simp only at hfalse ⊢
    have hnc : ¬((strStartsWith (typeString f.type) "[]" &&
        s.contains (strDrop (typeString f.type) 2)) = true) := by
      rw [hfalse]
      exact Bool.false_ne_true
    rw [if_neg hnc]

/-- Witness for C4: `Genres []Genre` is an edge with EdgeEntity `Genre`
even though the `Genre` declaration lacks DType and never becomes an
entity, and `Genre` is in the Pass-1 set of the demo package. -/
theorem claim_C4_witness :
    (parseFieldCore ["Film", "Genre"] "Genres" genresRaw).IsEdge = true ∧
    (parseFieldCore ["Film", "Genre"] "Genres" genresRaw).EdgeEntity = "Genre" ∧
    (collectStructNames demoDecls).contains "Genre" = true := by
  refine ⟨?_, ?_, ?_⟩
  · exact ((claim_C4 ["Film", "Genre"] "Genres" genresRaw).2.1 "Genre"
      (by decide) (by decide)).1
  · exact ((claim_C4 ["Film", "Genre"] "Genres" genresRaw).2.1 "Genre"
      (by decide) (by decide)).2
  · exact ((claim_C4 [] "x" genresRaw).2.2.2 demoDecls "Genre").mpr
      ⟨genreDecl, by decide, rfl, by decide⟩

/-- C3: for every built Entity, Searchable is true iff some non-UID/DType
string-typed field carries a fulltext index, and SearchField is the name of
the first such field in declaration order (first match wins; UID/DType
fields are never selected, being excluded by the qualifying test). -/
theorem claim_C3 (name : String) (raws : List RawField) (structNames : List String)
    (e : Entity) (h : parseStruct name raws structNames = some e) :
    (e.Searchable = true ↔ ∃ fl ∈ e.Fields, searchQualifies fl = true) ∧
    (∀ pre fl post, e.Fields = pre ++ fl :: post →
      (∀ g ∈ pre, searchQualifies g = false) → searchQualifies fl = true →
      e.Searchable = true ∧ e.SearchField = fl.Name) := by
  simp only [parseStruct] at h
  split at h
  · exact absurd h (by simp)
  · have he := Option.some.inj h
    subst he
    cases hfind : List.find? searchQualifies
        (raws.foldl (parseStructStep structNames) ([], false, false)).1 with
    | none =>
      have hE : applyInference
          { Name := name,
            Fields := (raws.foldl (parseStructStep structNames) ([], false, false)).1 } =
          { Name := name,
            Fields := (raws.foldl (parseStructStep structNames) ([], false, false)).1 } := by
        simp [applyInference, hfind]
      rw [hE]
      constructor
      · simp only
        constructor
        · intro hfalse
          exact absurd hfalse (by simp)
        · rintro ⟨fl, hmem, hq⟩
          have hn := List.find?_eq_none.mp hfind fl hmem
          exact absurd hq (by simp [hn])
      · intro pre fl post hdecomp hpre hq
        have hdecomp2 :
            (raws.foldl (parseStructStep structNames) ([], false, false)).1 =
              pre ++ fl :: post := hdecomp
        have hsome : List.find? searchQualifies
            (raws.foldl (parseStructStep structNames) ([], false, false)).1 = some fl := by
          rw [hdecomp2]
          exact find?_append_first _ pre fl post hpre hq
        rw [hfind] at hsome
        exact absurd hsome (by simp)
    | some f0 =>
      have hE : applyInference
          { Name := name,
            Fields := (raws.foldl (parseStructStep structNames) ([], false, false)).1 } =
          { Name := name,
            Fields := (raws.foldl (parseStructStep structNames) ([], false, false)).1,
            Searchable := true, SearchField := f0.Name } := by
        simp [applyInference, hfind]
      rw [hE]
      constructor
      · simp only
        constructor
        · intro _
          exact ⟨f0, List.mem_of_find?_eq_some hfind, List.find?_some hfind⟩
        · intro _
          trivial
      · intro pre fl post hdecomp hpre hq
        have hdecomp2 :
            (raws.foldl (parseStructStep structNames) ([], false, false)).1 =
              pre ++ fl :: post := hdecomp
        have hsome : List.find? searchQualifies
            (raws.foldl (parseStructStep structNames) ([], false, false)).1 = some fl := by
          rw [hdecomp2]
          exact find?_append_first _ pre fl post hpre hq
        rw [hfind] at hsome
        have hf0 := Option.some.inj hsome
        subst hf0
        exact ⟨rfl, rfl⟩

/-- Witness for C3: `Film` has two fulltext string fields, `Name` declared
before `Title`; the first one wins. -/
theorem claim_C3_witness :
    filmEntity.Searchable = true ∧ filmEntity.SearchField = "Name" := by
  have hc := claim_C3 "Film" filmDecl.fields (collectStructNames demoDecls)
    filmEntity (by decide)
  have h2 := hc.2
    [parseFieldCore (collectStructNames demoDecls) "UID" uidRaw,
     parseFieldCore (collectStructNames demoDecls) "DType" dtypeRaw]
    (parseFieldCore (collectStructNames demoDecls) "Name" nameRaw)
    [parseFieldCore (collectStructNames demoDecls) "Title" titleRaw,
     parseFieldCore (collectStructNames demoDecls) "Genres" genresRaw]
    (by decide) (by decide) (by decide)
  refine ⟨h2.1, ?_⟩
  rw [h2.2]
  decide

theorem parseFieldCore_Name (s : List String) (n : String) (f : RawField) :
    (parseFieldCore s n f).Name = n := by
  rw [parseFieldCore_char]

theorem parseFieldCore_IsUID (s : List String) (n : String) (f : RawField) :
    (parseFieldCore s n f).IsUID =
      if n = "UID" ∧ typeString f.type = "string" then true else false := by
  rw [parseFieldCore_char]

theorem parseFieldCore_IsDType (s : List String) (n : String) (f : RawField) :
    (parseFieldCore s n f).IsDType =
      if n = "DType" ∧ typeString f.type = "[]string" then true else false := by
  rw [parseFieldCore_char]

theorem foldl_fields_exported (structNames : List String) (raws : List RawField) :
    ∀ acc : List Field × Bool × Bool,
      (∀ fl ∈ acc.1, isExported fl.Name = true) →
      ∀ fl ∈ (raws.foldl (parseStructStep structNames) acc).1,
        isExported fl.Name = true := by
  induction raws with
  | nil => intro acc hacc; exact hacc
  | cons f r ih =>
    intro acc hacc
    rw [List.foldl_cons]
    apply ih
    cases hnames : f.names with
    | nil => simpa [parseStructStep, hnames] using hacc
    | cons fieldName rest =>
      by_cases hexp : isExported fieldName = true
      · simp only [parseStructStep, hnames]
        rw [if_pos hexp]
        intro fl hfl
        rcases List.mem_append.mp hfl with hin | hin
        · exact hacc fl hin
        · rw [List.mem_singleton] at hin
          subst hin
          rw [parseFieldCore_Name]
          exact hexp
      · simp only [parseStructStep, hnames]
        rw [if_neg hexp]
        exact hacc

theorem foldl_hasUID (structNames : List String) (raws : List RawField) :
    ∀ acc : List Field × Bool × Bool,
      (acc.2.1 = true ↔ ∃ fl ∈ acc.1, fl.IsUID = true) →
      ((raws.foldl (parseStructStep structNames) acc).2.1 = true ↔
        ∃ fl ∈ (raws.foldl (parseStructStep structNames) acc).1, fl.IsUID = true) := by
  induction raws with
  | nil => intro acc hacc; exact hacc
  | cons f r ih =>
    intro acc hacc
    rw [List.foldl_cons]
    apply ih
    cases hnames : f.names with
    | nil => simpa [parseStructStep, hnames] using hacc
    | cons fieldName rest =>
      by_cases hexp : isExported fieldName = true
      · simp only [parseStructStep, hnames]
        rw [if_pos hexp]
        by_cases hcond : fieldName = "UID" ∧ typeString f.type = "string"
        · rw [if_pos hcond]
          simp only
          constructor
          · intro _
            exact ⟨parseFieldCore structNames fieldName f, by simp,
              by rw [parseFieldCore_IsUID, if_pos hcond]⟩
          · intro _
            trivial
        · rw [if_neg hcond]
          simp only
          rw [hacc]
          constructor
          · rintro ⟨fl, hin, hq⟩
            exact ⟨fl, by simp [hin], hq⟩
          · rintro ⟨fl, hin, hq⟩
            rcases List.mem_append.mp hin with hin2 | hin2
            · exact ⟨fl, hin2, hq⟩
            · rw [List.mem_singleton] at hin2
              subst hin2
              rw [parseFieldCore_IsUID, if_neg hcond] at hq
              exact absurd hq Bool.false_ne_true
      · simp only [parseStructStep, hnames]
        rw [if_neg hexp]
        exact hacc

theorem foldl_hasDType (structNames : List String) (raws : List RawField) :
    ∀ acc : List Field × Bool × Bool,
      (acc.2.2 = true ↔ ∃ fl ∈ acc.1, fl.IsDType = true) →
      ((raws.foldl (parseStructStep structNames) acc).2.2 = true ↔
        ∃ fl ∈ (raws.foldl (parseStructStep structNames) acc).1, fl.IsDType = true) := by
  induction raws with
  | nil => intro acc hacc; exact hacc
  | cons f r ih =>
    intro acc hacc
    rw [List.foldl_cons]
    apply ih
    cases hnames : f.names with
    | nil => simpa [parseStructStep, hnames] using hacc
    | cons fieldName rest =>
      by_cases hexp : isExported fieldName = true
      · simp only [parseStructStep, hnames]
        rw [if_pos hexp]
        by_cases hcond : fieldName = "DType" ∧ typeString f.type = "[]string"
        · rw [if_pos hcond]
          simp only
          constructor
          · intro _
            exact ⟨parseFieldCore structNames fieldName f, by simp,
              by rw [parseFieldCore_IsDType, if_pos hcond]⟩
          · intro _
            trivial
        · rw [if_neg hcond]
          simp only
          rw [hacc]
          constructor
          · rintro ⟨fl, hin, hq⟩
            exact ⟨fl, by simp [hin], hq⟩
          · rintro ⟨fl, hin, hq⟩
            rcases List.mem_append.mp hin with hin2 | hin2
            · exact ⟨fl, hin2, hq⟩
            · rw [List.mem_singleton] at hin2
              subst hin2
              rw [parseFieldCore_IsDType, if_neg hcond] at hq
              exact absurd hq Bool.false_ne_true
      · simp only [parseStructStep, hnames]
        rw [if_neg hexp]
        exact hacc

theorem parseStruct_name (name : String) (raws : List RawField)
    (structNames : List String) (e : Entity)
    (h : parseStruct name raws structNames = some e) : e.Name = name := by
  simp only [parseStruct] at h
  split at h
  · exact absurd h (by simp)
  · have he := Option.some.inj h
    subst he
    rw [applyInference_Name]

theorem parseStruct_isSome (name : String) (raws : List RawField)
    (structNames : List String) :
    (parseStruct name raws structNames).isSome = true ↔
      ((raws.foldl (parseStructStep structNames) ([], false, false)).2.1 = true ∧
       (raws.foldl (parseStructStep structNames) ([], false, false)).2.2 = true) := by
  simp only [parseStruct]
  split
  · rename_i hcond
    constructor
    · intro hf
      exact absurd hf (by simp)
    · rintro ⟨h1, h2⟩
      rcases hcond with hc | hc
      · rw [h1] at hc; exact absurd hc (by decide)
      · rw [h2] at hc; exact absurd hc (by decide)
  · rename_i hcond
    push_neg at hcond
    constructor
    · intro _
      exact ⟨Bool.ne_false_iff.mp hcond.1, Bool.ne_false_iff.mp hcond.2⟩
    · intro _
      rfl

theorem isExported_ne_empty (x : String) (h : isExported x = true) : x ≠ "" := by
  intro heq
  subst heq
  exact absurd h (by decide)

/-- C2: a declared exported struct appears in the output Entities iff its
parsed fields contain one flagged IsUID and one flagged IsDType; a type
missing either is silently excluded while the (total) build still produces
a Package, with no error value anywhere in the model. -/
theorem claim_C2 (pkgName : String) (decls : List TypeDecl) (d : TypeDecl)
    (hmem : d ∈ decls) (hexp : isExported d.name = true)
    (hnodup : (decls.map TypeDecl.name).Nodup) :
    ((∃ fl ∈ parseStructFields (collectStructNames decls) d.fields, fl.IsUID = true) ∧
      (∃ fl ∈ parseStructFields (collectStructNames decls) d.fields, fl.IsDType = true)) ↔
      ∃ e ∈ (parsePackage pkgName decls).Entities, e.Name = d.name := by
  have hU := foldl_hasUID (collectStructNames decls) d.fields ([], false, false) (by simp)
  have hD := foldl_hasDType (collectStructNames decls) d.fields ([], false, false) (by simp)
  constructor
  · rintro ⟨hu, hd2⟩
    have hsome := (parseStruct_isSome d.name d.fields (collectStructNames decls)).mpr
      ⟨hU.mpr hu, hD.mpr hd2⟩
    rcases hps : parseStruct d.name d.fields (collectStructNames decls) with _ | e
    · rw [hps] at hsome
      exact absurd hsome (by decide)
    · refine ⟨e, ?_, parseStruct_name _ _ _ _ hps⟩
      simp only [parsePackage]
      rw [List.mem_filterMap]
      exact ⟨d, hmem, by rw [if_pos hexp]; exact hps⟩
  · rintro ⟨e, he, hname⟩
    simp only [parsePackage] at he
    rw [List.mem_filterMap] at he
    obtain ⟨d2, hd2mem, hfd2⟩ := he
    by_cases hexp2 : isExported d2.name = true
    · rw [if_pos hexp2] at hfd2
      have hn2 : e.Name = d2.name := parseStruct_name _ _ _ _ hfd2
      obtain rfl : d2 = d :=
        List.inj_on_of_nodup_map hnodup hd2mem hmem (by rw [← hn2, hname])
      have hs : (parseStruct d2.name d2.fields (collectStructNames decls)).isSome = true := by
        rw [hfd2]; rfl
      obtain ⟨h1, h2⟩ := (parseStruct_isSome _ _ _).mp hs
      exact ⟨hU.mp h1, hD.mp h2⟩
    · rw [if_neg hexp2] at hfd2
      exact absurd hfd2 (by simp)

/-- Witness for C2: in the demo package, `Film` (with UID and DType) is in
Entities and `Genre` (no DType) is silently excluded. -/
theorem claim_C2_witness :
    (∃ e ∈ (parsePackage "movies" demoDecls).Entities, e.Name = "Film") ∧
    ¬∃ e ∈ (parsePackage "movies" demoDecls).Entities, e.Name = "Genre" := by
  constructor
  · exact (claim_C2 "movies" demoDecls filmDecl (by decide) (by decide)
      (by decide)).mp (by decide)
  · intro hex
    have h := (claim_C2 "movies" demoDecls genreDecl (by decide) (by decide)
      (by decide)).mpr hex
    exact absurd h.2 (by decide)

/-- C10: for every Entity in the output Package, Searchable is true iff
SearchField is non-empty: a qualifying field contributes its necessarily
non-empty exported name together with Searchable true, and otherwise both
keep their zero values. -/
theorem claim_C10 (pkgName : String) (decls : List TypeDecl) (e : Entity)
    (h : e ∈ (parsePackage pkgName decls).Entities) :
    e.Searchable = true ↔ e.SearchField ≠ "" := by
  simp only [parsePackage] at h
  rw [List.mem_filterMap] at h
  obtain ⟨d, hdmem, hfd⟩ := h
  by_cases hexp : isExported d.name = true
  · rw [if_pos hexp] at hfd
    simp only [parseStruct] at hfd
    split at hfd
    · exact absurd hfd (by simp)
    · have he := Option.some.inj hfd
      subst he
      have hallexp : ∀ fl ∈ (d.fields.foldl
            (parseStructStep (collectStructNames decls)) ([], false, false)).1,
          isExported fl.Name = true :=
        foldl_fields_exported _ _ ([], false, false) (by simp)
      cases hfind : List.find? searchQualifies
          (d.fields.foldl (parseStructStep (collectStructNames decls))
            ([], false, false)).1 with
      | none =>
        have hE : applyInference
            { Name := d.name,
              Fields := (d.fields.foldl (parseStructStep (collectStructNames decls))
                ([], false, false)).1 } =
            { Name := d.name,
              Fields := (d.fields.foldl (parseStructStep (collectStructNames decls))
                ([], false, false)).1 } := by
          simp [applyInference, hfind]
        rw [hE]
        simp only
        constructor
        · intro hf
          exact absurd hf (by simp)
        · intro hf
          exact absurd rfl hf
      | some f0 =>
        have hE : applyInference
            { Name := d.name,
              Fields := (d.fields.foldl (parseStructStep (collectStructNames decls))
                ([], false, false)).1 } =
            { Name := d.name,
              Fields := (d.fields.foldl (parseStructStep (collectStructNames decls))
                ([], false, false)).1,
              Searchable := true, SearchField := f0.Name } := by
          simp [applyInference, hfind]
        rw [hE]
        simp only
        constructor
        · intro _
          exact isExported_ne_empty f0.Name
            (hallexp f0 (List.mem_of_find?_eq_some hfind))
        · intro _
          trivial
  · rw [if_neg hexp] at hfd
    exact absurd hfd (by simp)

/-- Witness for C10: the demo entity for `Film` satisfies the equivalence. -/
theorem claim_C10_witness :
    filmEntity.Searchable = true ↔ filmEntity.SearchField ≠ "" :=
  claim_C10 "movies" demoDecls filmEntity (by decide)

end ModusGraphGen
